import Mathlib

/-!
Verification of the schema-driven content sanitizer
`contentManagementUtilRemoveFieldsFromData` (the spec's "Content Tree Redactor",
`redact`).  The JavaScript data values handled by the function are modelled by
the mutually inductive types `Value` / `VList` / `Fields`; the function itself
is embedded as `cleanData`, a faithful translation of `recursiveCleanData`
driven by a structural fuel so that it both computes and admits induction.
-/

/- A JavaScript value as consumed by the sanitizer: a scalar (`null`, boolean,
number, string), an array (`arr`), or a plain object (`obj`) given as its
ordered field list.  JS objects never have duplicate keys; functions on
`Fields` consistently act on the first binding of a key, so lists with
duplicated keys carry no extra meaning.  (Numbers are modelled as integers;
no claim concerns float behaviour.) -/
mutual
inductive Value where
  | null : Value
  | bool (b : Bool) : Value
  | num (n : Int) : Value
  | str (s : String) : Value
  | arr (elems : VList) : Value
  | obj (fields : Fields) : Value
inductive VList where
  | nil : VList
  | cons (head : Value) (tail : VList) : VList
inductive Fields where
  | nil : Fields
  | cons (key : String) (value : Value) (tail : Fields) : Fields
end

/- Structural size of a value, used as recursion fuel for the sanitizer. -/
mutual
def valSize : Value → Nat
  | .null => 1
  | .bool _ => 1
  | .num _ => 1
  | .str _ => 1
  | .arr l => 1 + vlistSize l
  | .obj f => 1 + fieldsSize f
def vlistSize : VList → Nat
  | .nil => 0
  | .cons v r => 1 + valSize v + vlistSize r
def fieldsSize : Fields → Nat
  | .nil => 0
  | .cons _ v r => 1 + valSize v + fieldsSize r
end

/-- JavaScript truthiness, used by the source's `if (!value)` check:
`null`, `false`, `0` and `""` are falsy; objects and arrays are truthy. -/
def truthy : Value → Bool
  | .null => false
  | .bool b => b
  | .num n => n != 0
  | .str s => s ≠ ""
  | .arr _ => true
  | .obj _ => true

/- JavaScript string coercion of a value used as a property key
(`componentSchema[componentValue.__component]`): strings are themselves,
numbers and booleans print, `null` prints "null", arrays comma-join their
elements (null elements joining as empty), other objects print
"[object Object]". -/
mutual
def jsToKeyStr : Value → String
  | .null => "null"
  | .bool true => "true"
  | .bool false => "false"
  | .num n => toString n
  | .str s => s
  | .arr l => jsArrStr l
  | .obj _ => "[object Object]"
def jsArrStr : VList → String
  | .nil => ""
  | .cons .null .nil => ""
  | .cons v .nil => jsToKeyStr v
  | .cons .null r => "," ++ jsArrStr r
  | .cons v r => jsToKeyStr v ++ "," ++ jsArrStr r
end

/-- Decimal index keys `"0"`, `"1"`, … paired with the elements of an array,
as produced by `Object.keys` on a JS array. -/
def withIndexKeys : Nat → VList → Fields
  | _, .nil => .nil
  | i, .cons v r => .cons (Nat.repr i) v (withIndexKeys (i + 1) r)

/-- The enumerable own fields of a value: an object's field list, an array's
index-keyed elements, nothing for scalars.  This is what `Object.keys`
enumerates and `Object.assign({}, data)` copies in the source.  (JS
`Object.keys` on a string would expose index keys too, but the source can
recurse unboundedly on such non-record input, and all claims concern
records; JS also reorders integer-like object keys first, which no claim
depends on.  The source reads the value with lodash `get(data, current)`;
for field names free of lodash path syntax this is exact-key lookup, which
the embedding uses throughout.) -/
def toObjFields : Value → Fields
  | .obj f => f
  | .arr l => withIndexKeys 0 l
  | _ => .nil

/-- The field list of an object value (empty for non-objects); used to state
properties about outputs of the sanitizer, which are always objects. -/
def objFields : Value → Fields
  | .obj f => f
  | _ => .nil

/-- The element list of an array value (empty for non-arrays); observation
helper. -/
def arrElems : Value → VList
  | .arr l => l
  | _ => .nil

/-- Is the value a JS array (`Array.isArray`)? -/
def isArr : Value → Bool
  | .arr _ => true
  | _ => false

/-- First element of a `VList` (or `null`); observation helper. -/
def headV : VList → Value
  | .nil => .null
  | .cons v _ => v

/-- Length of a `VList`. -/
def vlen : VList → Nat
  | .nil => 0
  | .cons _ r => 1 + vlen r

/-- Element `n` of a `VList` (or `null` past the end); observation helper. -/
def vget : VList → Nat → Value
  | .nil, _ => .null
  | .cons v _, 0 => v
  | .cons _ r, n + 1 => vget r n

/-- Map over a `VList`; models `value.map(...)` in the source. -/
def vmap (f : Value → Value) : VList → VList
  | .nil => .nil
  | .cons v r => .cons (f v) (vmap f r)

/-- Membership in a `VList`. -/
def vmem (v : Value) : VList → Prop
  | .nil => False
  | .cons h t => v = h ∨ vmem v t

/-- The ordered key list of a field list. -/
def keys : Fields → List String
  | .nil => []
  | .cons k _ r => k :: keys r

/-- First binding of key `k`, i.e. JS property read on an object. -/
def getKey (k : String) : Fields → Option Value
  | .nil => none
  | .cons k' v r => if k' = k then some v else getKey k r

/-- Remove every binding of key `k`; models `delete acc[current]` (a JS object
holds at most one binding per key). -/
def eraseKey (k : String) : Fields → Fields
  | .nil => .nil
  | .cons k' v r => if k' = k then eraseKey k r else .cons k' v (eraseKey k r)

/-- Overwrite the first binding of key `k` in place (or append one); models
`acc[current] = v`. -/
def setKey (k : String) (v : Value) : Fields → Fields
  | .nil => .cons k v .nil
  | .cons k' v' r => if k' = k then .cons k v r else .cons k' v' (setKey k v r)

/-- Membership test on a string list; models `fields.indexOf(current) !== -1`. -/
def memStr (k : String) : List String → Bool
  | [] => false
  | s :: r => if s = k then true else memStr k r

/-- Generic first-binding lookup in an association list (schema attribute maps
and the component-schema table `componentSchema[...]`). -/
def lookupStr (k : String) : List (String × α) → Option α
  | [] => none
  | (k', v) :: r => if k' = k then some v else lookupStr k r

/-- Modelled from the spec: one field's `AttributeSchema` — the declared
`attributeKind` (the source compares the strings `"dynamiczone"` and
`"component"`), the `componentIdentifier` key into the component-schema
table, and the `repeatable` flag.  The accessor module `getAttributeInfos`
(`getType` / `getOtherInfos`) is not part of the sources; per the spec each
accessor reads these declared per-field data, absent entries yielding the
defaults (`""` / `false`). -/
structure Attribute where
  type : String
  component : String
  repeatable : Bool

/-- A content-type or component schema as consumed by the sanitizer: its
per-field attribute declarations plus the raw `options.timestamps` value
(`Value.null` standing for an absent option; any non-array is ignored). -/
structure Schema where
  attributes : List (String × Attribute)
  timestamps : Value

/-- Modelled from the spec: attribute declaration of field `k`, `none` when
the field or the whole schema is absent (the latter models
`componentSchema[...]` lookups that return `undefined`, on which lodash
`get` yields only defaults). -/
def getAttr (so : Option Schema) (k : String) : Option Attribute :=
  match so with
  | none => none
  | some s => lookupStr k s.attributes

/-- Modelled from the spec: `getType(schema, current)` — the declared
attribute kind, `""` when undeclared. -/
def getType (so : Option Schema) (k : String) : String :=
  ((getAttr so k).map Attribute.type).getD ""

/-- Modelled from the spec: `getOtherInfos(schema, [current, 'component'])` —
the component identifier, `""` when undeclared. -/
def getComponent (so : Option Schema) (k : String) : String :=
  ((getAttr so k).map Attribute.component).getD ""

/-- Modelled from the spec: `getOtherInfos(schema, [current, 'repeatable'])` —
the repeatable flag, falsy when undeclared. -/
def getRepeatable (so : Option Schema) (k : String) : Bool :=
  ((getAttr so k).map Attribute.repeatable).getD false

/-- The value of `get(schema, ['options', 'timestamps'])` followed by the source's
`Array.isArray` guard: the timestamps entries when that option is an array,
`[]` otherwise (including an absent schema). -/
def timestampsVals (so : Option Schema) : VList :=
  match so with
  | none => .nil
  | some s =>
    match s.timestamps with
    | .arr l => l
    | _ => .nil

/-- Does the timestamps list contain the string `k`?  `indexOf` compares with
`===`, so non-string entries never match a string key. -/
def tsContains (k : String) : VList → Bool
  | .nil => false
  | .cons (.str s) r => if s = k then true else tsContains k r
  | .cons _ r => tsContains k r

/-- The source's exclusion test
`[...fields, ...timestamps].indexOf(current) !== -1`: the supplied exclusion
names unioned with the current schema level's well-formed timestamps
entries. -/
def inExcluded (fields : List String) (so : Option Schema) (k : String) : Bool :=
  memStr k fields || tsContains k (timestampsVals so)

/-- The property key used for `componentSchema[componentValue.__component]`:
the string coercion of the entry's `__component` value, or `"undefined"`
when the entry has no such field (JS coerces the `undefined` read to the
property key `"undefined"`).  (On a `null`/`undefined` entry the source
itself throws a `TypeError` before producing output; entries of records are
objects, and no claim is settled on that path.) -/
def discKey (cv : Value) : String :=
  match getKey "__component" (toObjFields cv) with
  | some v => jsToKeyStr v
  | none => "undefined"

/-- One iteration of the source's `Object.keys(data).reduce(...)` callback,
with the recursive call abstracted as `rec`:
* an excluded name is deleted from the accumulator;
* a falsy value is left as copied;
* a `"dynamiczone"` kind with an array value maps each entry through the
  schema resolved by its own `__component` discriminator (a `"dynamiczone"`
  kind with a non-array value falls through to the final return);
* a `"component"` kind recurses entry-wise when repeatable with an array
  value, else on the single value, via the declared component identifier;
* anything else is left as copied. -/
def cleanStep (tbl : List (String × Schema)) (fields : List String)
    (rec : Value → Option Schema → Value) (data : Value) (so : Option Schema)
    (acc : Fields) (current : String) : Fields :=
  if inExcluded fields so current then eraseKey current acc
  else
    match getKey current (toObjFields data) with
    | none => acc
    | some value =>
      if truthy value = false then acc
      else if getType so current = "dynamiczone" then
        match value with
        | .arr l =>
            setKey current
              (Value.arr (vmap (fun cv => rec cv (lookupStr (discKey cv) tbl)) l)) acc
        | _ => acc
      else if getType so current = "component" then
        if getRepeatable so current then
          match value with
          | .arr l =>
              setKey current
                (Value.arr (vmap (fun cd => rec cd (lookupStr (getComponent so current) tbl)) l)) acc
          | _ => setKey current (rec value (lookupStr (getComponent so current) tbl)) acc
        else setKey current (rec value (lookupStr (getComponent so current) tbl)) acc
      else acc

/-- The source's `recursiveCleanData(data, schema)`, fuelled: the reduce over
`Object.keys(data)` seeded with the shallow copy `Object.assign({}, data)`,
each step being `cleanStep`.  The fuel only bounds the recursion depth;
`cleanData` instantiates it with `valSize data`, which
`cleanDataF_irrelevant` proves sufficient. -/
def cleanDataF (tbl : List (String × Schema)) (fields : List String) :
    Nat → Value → Option Schema → Value
  | 0 => fun _ _ => Value.obj .nil
  | f + 1 => fun data so =>
      Value.obj (List.foldl (cleanStep tbl fields (cleanDataF tbl fields f) data so)
        (toObjFields data) (keys (toObjFields data)))

/-- The source's `recursiveCleanData(data, schema)` with the component table and exclusion
names in scope, as in the source closure. -/
def cleanData (tbl : List (String × Schema)) (fields : List String)
    (data : Value) (so : Option Schema) : Value :=
  cleanDataF tbl fields (valSize data) data so

/-- The source's `defaultFields`, its default exclusion list. -/
def defaultFields : List String := ["createdBy", "updatedBy", "publishedAt", "id", "_id"]

/-- The source's `contentManagementUtilRemoveFieldsFromData(data,
contentTypeSchema, componentSchema, fields)`. -/
def contentManagementUtilRemoveFieldsFromData (data : Value) (contentTypeSchema : Schema)
    (componentSchema : List (String × Schema)) (fields : List String) : Value :=
  cleanData componentSchema fields data (some contentTypeSchema)

/-- The spec's `redact(record, contentTypeSchema, componentSchemaTable)` with
the defaulted exclusion set. -/
def redact (data : Value) (contentTypeSchema : Schema)
    (componentSchema : List (String × Schema)) : Value :=
  contentManagementUtilRemoveFieldsFromData data contentTypeSchema componentSchema defaultFields

/-- Hypothesis bundle for idempotence: under schema level `so` the
`__component` discriminator is not an excluded name and is not declared with
a structured kind, so a first sanitizing pass leaves dynamic-zone
discriminators readable for a second pass. -/
def compOk (fields : List String) (so : Option Schema) : Prop :=
  inExcluded fields so "__component" = false ∧
    getType so "__component" ≠ "component" ∧ getType so "__component" ≠ "dynamiczone"

instance (fields : List String) (so : Option Schema) : Decidable (compOk fields so) := by
  unfold compOk
  infer_instance

/-! Concrete sample records, schemas and tables used by the scenario witnesses
and counterexamples below. -/

/-- A nested component value carrying an excluded `id`. -/
def subRecord : Value := .obj (.cons "a" (.num 1) (.cons "id" (.num 3) .nil))

/-- A record whose only field is a component with an unresolvable identifier. -/
def unresolvedRecord : Value := .obj (.cons "sub" subRecord .nil)

/-- Schema declaring `sub` as a singular component with identifier `"missing"`. -/
def unresolvedSchema : Schema := ⟨[("sub", ⟨"component", "missing", false⟩)], .null⟩

/-- A record with a single falsy boolean field. -/
def falsyRecord : Value := .obj (.cons "flag" (.bool false) .nil)

/-- Schema declaring `flag` as a plain boolean attribute. -/
def falsySchema : Schema := ⟨[("flag", ⟨"boolean", "", false⟩)], .null⟩

/-- A record with a single truthy scalar field. -/
def titleRecord : Value := .obj (.cons "title" (.str "Hi") .nil)

/-- Schema declaring `title` as a plain string attribute. -/
def titleSchema : Schema := ⟨[("title", ⟨"string", "", false⟩)], .null⟩

/-- Dynamic-zone entry with discriminator `"hero"` and a timestamps-excluded
field (spec scenario C). -/
def heroEntry : Value :=
  .obj (.cons "__component" (.str "hero")
    (.cons "t" (.str "x") (.cons "ts1" (.num 5) .nil)))

/-- Dynamic-zone entry with discriminator `"quote"` (spec scenario C). -/
def quoteEntry : Value :=
  .obj (.cons "__component" (.str "quote") (.cons "q" (.str "y") .nil))

/-- Record with a two-entry dynamic zone `sections` (spec scenario C). -/
def sectionsRecord : Value :=
  .obj (.cons "sections" (.arr (.cons heroEntry (.cons quoteEntry .nil))) .nil)

/-- Schema declaring `sections` as a dynamic zone (spec scenario C). -/
def sectionsSchema : Schema := ⟨[("sections", ⟨"dynamiczone", "", false⟩)], .null⟩

/-- Component table for scenario C: `hero` excludes `ts1` via its timestamps. -/
def sectionsTable : List (String × Schema) :=
  [("hero", ⟨[], .arr (.cons (.str "ts1") .nil)⟩), ("quote", ⟨[], .null⟩)]

/-- First repeatable-component entry (spec scenario B). -/
def imageEntry1 : Value := .obj (.cons "id" (.num 1) (.cons "u" (.str "a") .nil))

/-- Second repeatable-component entry (spec scenario B). -/
def imageEntry2 : Value := .obj (.cons "id" (.num 2) (.cons "u" (.str "b") .nil))

/-- Record with a two-entry repeatable component `images` (spec scenario B). -/
def imagesRecord : Value :=
  .obj (.cons "images" (.arr (.cons imageEntry1 (.cons imageEntry2 .nil))) .nil)

/-- Schema declaring `images` as a repeatable component `img` (scenario B). -/
def imagesSchema : Schema := ⟨[("images", ⟨"component", "img", true⟩)], .null⟩

/-- Component table for scenario B. -/
def imagesTable : List (String × Schema) := [("img", ⟨[], .null⟩)]

/-- Record with a field named in the schema timestamps list (spec scenario D). -/
def datedRecord : Value :=
  .obj (.cons "customDate" (.str "2020") (.cons "title" (.str "T") .nil))

/-- Schema whose `options.timestamps` is `["publishedAt", "customDate"]`
(spec scenario D). -/
def datedSchema : Schema :=
  ⟨[("title", ⟨"string", "", false⟩)],
    .arr (.cons (.str "publishedAt") (.cons (.str "customDate") .nil))⟩

/-- Dynamic-zone entry whose resolved schema strips its own discriminator. -/
def discEntry : Value :=
  .obj (.cons "__component" (.str "c") (.cons "x" (.str "s") .nil))

/-- Record with a one-entry dynamic zone whose discriminator a first pass
removes. -/
def discRecord : Value := .obj (.cons "dz" (.arr (.cons discEntry .nil)) .nil)

/-- Schema declaring `dz` as a dynamic zone. -/
def discSchema : Schema := ⟨[("dz", ⟨"dynamiczone", "", false⟩)], .null⟩

/-- Component table on which a second sanitizing pass resolves a different
schema than the first: `c` strips `__component` via its timestamps, and the
key `"undefined"` (JS property key of an absent discriminator) strips `x`. -/
def discTable : List (String × Schema) :=
  [("c", ⟨[], .arr (.cons (.str "__component") .nil)⟩),
   ("undefined", ⟨[], .arr (.cons (.str "x") .nil)⟩)]

/-- A benign component table under which sanitizing is idempotent. -/
def benignTable : List (String × Schema) := [("c", ⟨[], .null⟩)]

/-- A record with one schema-undeclared field. -/
def plainRecord : Value := .obj (.cons "note" (.str "n") .nil)

/-- A schema declaring nothing. -/
def emptySchema : Schema := ⟨[], .null⟩

/-! ### Induction principles for the mutually inductive value types -/

/-- Structural induction on `Fields` alone (the stored values are untouched). -/
def Fields.inductionOn {motive : Fields → Prop} (t : Fields) (nil : motive .nil)
    (cons : ∀ k v r, motive r → motive (.cons k v r)) : motive t :=
  match t with
  | .nil => nil
  | .cons k v r => cons k v r (Fields.inductionOn r nil cons)

/-- Structural induction on `VList` alone (the stored values are untouched). -/
def VList.inductionOn {motive : VList → Prop} (t : VList) (nil : motive .nil)
    (cons : ∀ v r, motive r → motive (.cons v r)) : motive t :=
  match t with
  | .nil => nil
  | .cons v r => cons v r (VList.inductionOn r nil cons)

theorem vmem_cons (v h : Value) (t : VList) : vmem v (.cons h t) ↔ v = h ∨ vmem v t :=
  Iff.rfl

/-! ### Basic lemmas about the field-list operations -/

theorem getKey_eraseKey_self (k : String) (f : Fields) : getKey k (eraseKey k f) = none := by
  induction f using Fields.inductionOn with
  | nil => rfl
  | cons k' v r ih =>
    by_cases h : k' = k
    · simp [eraseKey, h, ih]
    · simp [eraseKey, getKey, h, ih]

theorem getKey_eraseKey_ne (c k : String) (f : Fields) (h : c ≠ k) :
    getKey k (eraseKey c f) = getKey k f := by
  induction f using Fields.inductionOn with
  | nil => rfl
  | cons k' v r ih =>
    have h3 : ¬ k = c := fun hh => h hh.symm
    by_cases h1 : k' = c
    · have h2 : ¬ k' = k := by
        rw [h1]
        exact h
      simp [eraseKey, h1, getKey, h2, h, ih]
    · by_cases h2 : k' = k
      · simp [eraseKey, h1, getKey, h2, h3]
      · simp [eraseKey, h1, getKey, h2, ih]

theorem getKey_setKey_self (k : String) (v : Value) (f : Fields) :
    getKey k (setKey k v f) = some v := by
  induction f using Fields.inductionOn with
  | nil => simp [setKey, getKey]
  | cons k' v' r ih =>
    by_cases h : k' = k
    · simp [setKey, getKey, h]
    · simp [setKey, getKey, h, ih]

theorem getKey_setKey_ne (c k : String) (v : Value) (f : Fields) (h : c ≠ k) :
    getKey k (setKey c v f) = getKey k f := by
  have hck : ¬ c = k := h
  induction f using Fields.inductionOn with
  | nil => simp [setKey, getKey, hck]
  | cons k' v' r ih =>
    have h3 : ¬ k = c := fun hh => h hh.symm
    by_cases h1 : k' = c
    · have h2 : ¬ k' = k := by
        rw [h1]
        exact h
      simp [setKey, getKey, h1, h2, hck]
    · by_cases h2 : k' = k
      · simp [setKey, getKey, h1, h2, h3]
      · simp [setKey, getKey, h1, h2, ih]

theorem setKey_self (k : String) (v : Value) (f : Fields) (h : getKey k f = some v) :
    setKey k v f = f := by
  induction f using Fields.inductionOn with
  | nil => simp [getKey] at h
  | cons k' v' r ih =>
    by_cases h1 : k' = k
    · subst h1
      simp [getKey] at h
      simp [setKey, h]
    · simp [getKey, h1] at h
      simp [setKey, h1, ih h]

theorem getKey_isSome_of_mem (k : String) (f : Fields) (h : k ∈ keys f) :
    (getKey k f).isSome = true := by
  induction f using Fields.inductionOn with
  | nil => simp [keys] at h
  | cons k' v r ih =>
    by_cases h1 : k' = k
    · simp [getKey, h1]
    · have h2 : ¬ k = k' := fun hh => h1 hh.symm
      simp [keys, h2] at h
      simp [getKey, h1, ih h]

theorem not_mem_of_getKey_none (k : String) (f : Fields) (h : getKey k f = none) :
    k ∉ keys f := by
  intro hmem
  have := getKey_isSome_of_mem k f hmem
  simp [h] at this

theorem getKey_none_of_not_mem (k : String) (f : Fields) (h : k ∉ keys f) :
    getKey k f = none := by
  induction f using Fields.inductionOn with
  | nil => rfl
  | cons k' v r ih =>
    simp [keys] at h
    have h1 : ¬ k' = k := fun hh => h.1 hh.symm
    simp [getKey, h1, ih h.2]

theorem mem_keys_eraseKey (c k : String) (f : Fields) :
    k ∈ keys (eraseKey c f) ↔ k ∈ keys f ∧ k ≠ c := by
  induction f using Fields.inductionOn with
  | nil => simp [eraseKey, keys]
  | cons k' v r ih =>
    by_cases h1 : k' = c
    · subst h1
      simp [eraseKey, keys, ih]
      tauto
    · simp [eraseKey, h1, keys, ih]
      constructor
      · rintro (h2 | ⟨h2, h3⟩)
        · refine ⟨Or.inl h2, ?_⟩
          subst h2
          exact fun hh => h1 hh
        · exact ⟨Or.inr h2, h3⟩
      · rintro ⟨h2 | h2, h3⟩
        · exact Or.inl h2
        · exact Or.inr ⟨h2, h3⟩

theorem mem_keys_setKey (c k : String) (v : Value) (f : Fields) :
    k ∈ keys (setKey c v f) ↔ k = c ∨ k ∈ keys f := by
  induction f using Fields.inductionOn with
  | nil => simp [setKey, keys]
  | cons k' v' r ih =>
    by_cases h1 : k' = c
    · subst h1
      simp [setKey, keys]
    · simp [setKey, h1, keys, ih]
      tauto

/-! ### Size lemmas -/

theorem valSize_pos (v : Value) : 1 ≤ valSize v := by
  cases v <;> simp [valSize]

theorem getKey_lt_fieldsSize (k : String) (f : Fields) (v : Value)
    (h : getKey k f = some v) : valSize v < fieldsSize f := by
  induction f using Fields.inductionOn with
  | nil => simp [getKey] at h
  | cons k' v' r ih =>
    by_cases h' : k' = k
    · simp [getKey, h'] at h
      subst h
      simp [fieldsSize]
      omega
    · simp [getKey, h'] at h
      have := ih h
      simp [fieldsSize]
      omega

theorem fieldsSize_withIndexKeys (i : Nat) (l : VList) :
    fieldsSize (withIndexKeys i l) = vlistSize l := by
  induction l using VList.inductionOn generalizing i with
  | nil => rfl
  | cons v r ih => simp [withIndexKeys, fieldsSize, vlistSize, ih]

theorem fieldsSize_toObjFields (d : Value) : fieldsSize (toObjFields d) < valSize d := by
  cases d <;> simp [toObjFields, fieldsSize, valSize, fieldsSize_withIndexKeys]

theorem getKey_toObjFields_size (k : String) (d v : Value)
    (h : getKey k (toObjFields d) = some v) : valSize v < valSize d :=
  lt_trans (getKey_lt_fieldsSize k _ v h) (fieldsSize_toObjFields d)

theorem vmem_size (cv : Value) (l : VList) (h : vmem cv l) :
    valSize cv < valSize (Value.arr l) := by
  have : valSize cv ≤ vlistSize l := by
    induction l using VList.inductionOn with
    | nil => simp [vmem] at h
    | cons hd t ih =>
      rcases h with h | h
      · subst h
        simp [vlistSize]
        omega
      · have := ih h
        simp [vlistSize]
        omega
  simp [valSize]
  omega

/-! ### `vmap` lemmas -/

theorem vmap_congr (f g : Value → Value) (l : VList) (h : ∀ v, vmem v l → f v = g v) :
    vmap f l = vmap g l := by
  induction l using VList.inductionOn with
  | nil => rfl
  | cons v r ih =>
    simp [vmap, h v (Or.inl rfl), ih fun w hw => h w (Or.inr hw)]

theorem vmap_comp_eq (f g : Value → Value) (l : VList) (h : ∀ v, vmem v l → f (g v) = g v) :
    vmap f (vmap g l) = vmap g l := by
  induction l using VList.inductionOn with
  | nil => rfl
  | cons v r ih =>
    simp [vmap, h v (Or.inl rfl), ih fun w hw => h w (Or.inr hw)]

theorem vlen_vmap (f : Value → Value) (l : VList) : vlen (vmap f l) = vlen l := by
  induction l using VList.inductionOn with
  | nil => rfl
  | cons v r ih => simp [vmap, vlen, ih]

theorem vget_vmap (f : Value → Value) (l : VList) (n : Nat) (h : n < vlen l) :
    vget (vmap f l) n = f (vget l n) := by
  induction l using VList.inductionOn generalizing n with
  | nil => simp [vlen] at h
  | cons v r ih =>
    cases n with
    | zero => rfl
    | succ m =>
      simp [vlen] at h
      simpa [vmap, vget] using ih m (by omega)

/-! ### Generic fold lemmas -/

theorem foldl_fun_ext {α β : Type} (f g : α → β → α) (ks : List β) (a : α)
    (h : ∀ a' b, f a' b = g a' b) : List.foldl f a ks = List.foldl g a ks := by
  induction ks generalizing a with
  | nil => rfl
  | cons k rest ih => simp [List.foldl_cons, h, ih]

theorem foldl_id_of_steps {α β : Type} (f : α → β → α) (ks : List β) (a : α)
    (h : ∀ b, b ∈ ks → f a b = a) : List.foldl f a ks = a := by
  induction ks with
  | nil => rfl
  | cons k rest ih =>
    simp [List.foldl_cons, h k (List.mem_cons_self k rest)]
    exact ih fun b hb => h b (List.mem_cons_of_mem k hb)

/-! ### Shape lemmas for one reduce step -/

theorem cleanStep_cases (tbl : List (String × Schema)) (fields : List String)
    (rec : Value → Option Schema → Value) (data : Value) (so : Option Schema)
    (acc : Fields) (k : String) :
    (inExcluded fields so k = true ∧
      cleanStep tbl fields rec data so acc k = eraseKey k acc) ∨
    (inExcluded fields so k = false ∧
      (cleanStep tbl fields rec data so acc k = acc ∨
        ∃ nv, cleanStep tbl fields rec data so acc k = setKey k nv acc)) := by
  by_cases he : inExcluded fields so k = true
  · exact Or.inl ⟨he, by simp [cleanStep, he]⟩
  · have he' : inExcluded fields so k = false := by simpa using he
    refine Or.inr ⟨he', ?_⟩
    simp only [cleanStep, he', Bool.false_eq_true, if_false]
    repeat first
      | exact Or.inl rfl
      | exact Or.inr ⟨_, rfl⟩
      | split

theorem cleanStep_congr (tbl : List (String × Schema)) (fields : List String)
    (rec₁ rec₂ : Value → Option Schema → Value) (data : Value) (so : Option Schema)
    (acc : Fields) (k : String)
    (h : ∀ v s', valSize v < valSize data → rec₁ v s' = rec₂ v s') :
    cleanStep tbl fields rec₁ data so acc k = cleanStep tbl fields rec₂ data so acc k := by
  by_cases he : inExcluded fields so k = true
  · simp [cleanStep, he]
  · have he' : inExcluded fields so k = false := by simpa using he
    simp only [cleanStep, he']
    cases hv : getKey k (toObjFields data) with
    | none => rfl
    | some v =>
      have hsz : valSize v < valSize data := getKey_toObjFields_size k data v hv
      by_cases ht : truthy v = false
      · simp [ht]
      · have ht' : truthy v = true := by simpa using ht
        simp only [ht', Bool.true_eq_false, if_false]
        by_cases hdz : getType so k = "dynamiczone"
        · simp only [hdz, if_true]
          cases v with
          | arr l =>
            have harg :
                vmap (fun cv => rec₁ cv (lookupStr (discKey cv) tbl)) l =
                vmap (fun cv => rec₂ cv (lookupStr (discKey cv) tbl)) l := by
              apply vmap_congr
              intro cv hcv
              exact h cv _ (lt_trans (vmem_size cv l hcv) hsz)
            simp [harg]
          | null => rfl
          | bool b => rfl
          | num n => rfl
          | str s => rfl
          | obj f => rfl
        · simp only [hdz, if_false]
          by_cases hc : getType so k = "component"
          · simp only [hc, if_true]
            cases hrep : getRepeatable so k with
            | false =>
              simp only [Bool.false_eq_true, if_false]
              rw [h v _ hsz]
            | true =>
              simp only [if_true]
              cases v with
              | arr l =>
                have harg :
                    vmap (fun cd => rec₁ cd (lookupStr (getComponent so k) tbl)) l =
                    vmap (fun cd => rec₂ cd (lookupStr (getComponent so k) tbl)) l := by
                  apply vmap_congr
                  intro cd hcd
                  exact h cd _ (lt_trans (vmem_size cd l hcd) hsz)
                simp [harg]
              | null => rw [h _ _ hsz]
              | bool b => rw [h _ _ hsz]
              | num n => rw [h _ _ hsz]
              | str s => rw [h _ _ hsz]
              | obj f => rw [h _ _ hsz]
          · simp [hc]

theorem cleanStep_noop_missing (tbl : List (String × Schema)) (fields : List String)
    (rec : Value → Option Schema → Value) (data : Value) (so : Option Schema) (k : String)
    (he : inExcluded fields so k = false) (hv : getKey k (toObjFields data) = none)
    (acc : Fields) : cleanStep tbl fields rec data so acc k = acc := by
  simp [cleanStep, he, hv]

theorem cleanStep_noop_falsy (tbl : List (String × Schema)) (fields : List String)
    (rec : Value → Option Schema → Value) (data : Value) (so : Option Schema) (k : String)
    (v : Value) (he : inExcluded fields so k = false)
    (hv : getKey k (toObjFields data) = some v) (ht : truthy v = false)
    (acc : Fields) : cleanStep tbl fields rec data so acc k = acc := by
  simp [cleanStep, he, hv, ht]

theorem cleanStep_noop_plain (tbl : List (String × Schema)) (fields : List String)
    (rec : Value → Option Schema → Value) (data : Value) (so : Option Schema) (k : String)
    (v : Value) (he : inExcluded fields so k = false)
    (hv : getKey k (toObjFields data) = some v) (ht : truthy v = true)
    (hdz : getType so k ≠ "dynamiczone") (hc : getType so k ≠ "component")
    (acc : Fields) : cleanStep tbl fields rec data so acc k = acc := by
  simp [cleanStep, he, hv, ht, hdz, hc]

theorem cleanStep_noop_dz_nonarr (tbl : List (String × Schema)) (fields : List String)
    (rec : Value → Option Schema → Value) (data : Value) (so : Option Schema) (k : String)
    (v : Value) (he : inExcluded fields so k = false)
    (hv : getKey k (toObjFields data) = some v) (ht : truthy v = true)
    (hdz : getType so k = "dynamiczone") (hna : ∀ l, v ≠ Value.arr l)
    (acc : Fields) : cleanStep tbl fields rec data so acc k = acc := by
  simp only [cleanStep, he, Bool.false_eq_true, if_false, hv, ht, Bool.true_eq_false, hdz,
    if_true, hna]

theorem cleanStep_set_dz (tbl : List (String × Schema)) (fields : List String)
    (rec : Value → Option Schema → Value) (data : Value) (so : Option Schema) (k : String)
    (l : VList) (he : inExcluded fields so k = false)
    (hv : getKey k (toObjFields data) = some (Value.arr l))
    (hdz : getType so k = "dynamiczone") (acc : Fields) :
    cleanStep tbl fields rec data so acc k =
      setKey k (Value.arr (vmap (fun cv => rec cv (lookupStr (discKey cv) tbl)) l)) acc := by
  simp [cleanStep, he, hv, hdz, truthy]

theorem cleanStep_set_comp_rep (tbl : List (String × Schema)) (fields : List String)
    (rec : Value → Option Schema → Value) (data : Value) (so : Option Schema) (k : String)
    (l : VList) (he : inExcluded fields so k = false)
    (hv : getKey k (toObjFields data) = some (Value.arr l))
    (hc : getType so k = "component") (hrep : getRepeatable so k = true) (acc : Fields) :
    cleanStep tbl fields rec data so acc k =
      setKey k (Value.arr (vmap (fun cd => rec cd (lookupStr (getComponent so k) tbl)) l))
        acc := by
  have hdz : getType so k ≠ "dynamiczone" := by simp [hc]
  simp [cleanStep, he, hv, hdz, hc, hrep, truthy]

theorem cleanStep_set_comp_single (tbl : List (String × Schema)) (fields : List String)
    (rec : Value → Option Schema → Value) (data : Value) (so : Option Schema) (k : String)
    (v : Value) (he : inExcluded fields so k = false)
    (hv : getKey k (toObjFields data) = some v) (ht : truthy v = true)
    (hc : getType so k = "component") (hrep : getRepeatable so k = false) (acc : Fields) :
    cleanStep tbl fields rec data so acc k =
      setKey k (rec v (lookupStr (getComponent so k) tbl)) acc := by
  have hdz : getType so k ≠ "dynamiczone" := by simp [hc]
  simp [cleanStep, he, hv, ht, hdz, hc, hrep]

theorem cleanStep_set_comp_rep_nonarr (tbl : List (String × Schema)) (fields : List String)
    (rec : Value → Option Schema → Value) (data : Value) (so : Option Schema) (k : String)
    (v : Value) (he : inExcluded fields so k = false)
    (hv : getKey k (toObjFields data) = some v) (ht : truthy v = true)
    (hc : getType so k = "component") (hrep : getRepeatable so k = true)
    (hna : ∀ l, v ≠ Value.arr l) (acc : Fields) :
    cleanStep tbl fields rec data so acc k =
      setKey k (rec v (lookupStr (getComponent so k) tbl)) acc := by
  have hdz : getType so k ≠ "dynamiczone" := by simp [hc]
  simp only [cleanStep, he, Bool.false_eq_true, if_false, hv, ht, Bool.true_eq_false, hdz,
    hc, hrep, if_true, hna]
  rw [if_neg (by decide)]

/-! ### Lemmas about the whole reduce -/

theorem fold_getKey_stable (tbl : List (String × Schema)) (fields : List String)
    (rec : Value → Option Schema → Value) (data : Value) (so : Option Schema) (k : String)
    (hself : ∀ acc, cleanStep tbl fields rec data so acc k = acc) (ks : List String) :
    ∀ acc : Fields,
      getKey k (List.foldl (cleanStep tbl fields rec data so) acc ks) = getKey k acc := by
  induction ks with
  | nil => intro acc; rfl
  | cons c rest ih =>
    intro acc
    rw [List.foldl_cons, ih]
    by_cases hck : c = k
    · subst hck
      rw [hself]
    · rcases cleanStep_cases tbl fields rec data so acc c with ⟨_, heq⟩ | ⟨_, heq | ⟨nv, heq⟩⟩
      · rw [heq, getKey_eraseKey_ne c k acc hck]
      · rw [heq]
      · rw [heq, getKey_setKey_ne c k nv acc hck]

theorem fold_getKey_set (tbl : List (String × Schema)) (fields : List String)
    (rec : Value → Option Schema → Value) (data : Value) (so : Option Schema) (k : String)
    (nv : Value)
    (hself : ∀ acc, cleanStep tbl fields rec data so acc k = setKey k nv acc)
    (ks : List String) :
    ∀ acc : Fields, (k ∈ ks ∨ getKey k acc = some nv) →
      getKey k (List.foldl (cleanStep tbl fields rec data so) acc ks) = some nv := by
  induction ks with
  | nil =>
    rintro acc (h | h)
    · simp at h
    · simpa using h
  | cons c rest ih =>
    rintro acc h
    rw [List.foldl_cons]
    by_cases hck : c = k
    · subst hck
      apply ih
      right
      rw [hself acc]
      exact getKey_setKey_self c nv acc
    · apply ih
      rcases h with h | h
      · rcases List.mem_cons.mp h with h' | h'
        · exact absurd h'.symm hck
        · exact Or.inl h'
      · right
        rcases cleanStep_cases tbl fields rec data so acc c with
          ⟨_, heq⟩ | ⟨_, heq | ⟨nv', heq⟩⟩
        · rw [heq, getKey_eraseKey_ne c k acc hck]
          exact h
        · rw [heq]
          exact h
        · rw [heq, getKey_setKey_ne c k nv' acc hck]
          exact h

theorem fold_not_mem_excl (tbl : List (String × Schema)) (fields : List String)
    (rec : Value → Option Schema → Value) (data : Value) (so : Option Schema) (k : String)
    (he : inExcluded fields so k = true) (ks : List String) :
    ∀ acc : Fields, (k ∉ keys acc ∨ k ∈ ks) →
      k ∉ keys (List.foldl (cleanStep tbl fields rec data so) acc ks) := by
  induction ks with
  | nil =>
    rintro acc (h | h)
    · exact h
    · simp at h
  | cons c rest ih =>
    rintro acc h
    rw [List.foldl_cons]
    apply ih
    by_cases hck : c = k
    · subst hck
      left
      rcases cleanStep_cases tbl fields rec data so acc c with ⟨_, heq⟩ | ⟨hne, _⟩
      · rw [heq]
        intro hmem
        exact ((mem_keys_eraseKey c c acc).mp hmem).2 rfl
      · rw [he] at hne
        exact absurd hne (by simp)
    · rcases h with h | h
      · left
        rcases cleanStep_cases tbl fields rec data so acc c with
          ⟨_, heq⟩ | ⟨_, heq | ⟨nv, heq⟩⟩
        · rw [heq]
          intro hmem
          exact h ((mem_keys_eraseKey c k acc).mp hmem).1
        · rw [heq]
          exact h
        · rw [heq]
          intro hmem
          rcases (mem_keys_setKey c k nv acc).mp hmem with h' | h'
          · exact hck h'.symm
          · exact h h'
      · rcases List.mem_cons.mp h with h' | h'
        · exact absurd h'.symm hck
        · exact Or.inr h'

theorem fold_mem_keys (tbl : List (String × Schema)) (fields : List String)
    (rec : Value → Option Schema → Value) (data : Value) (so : Option Schema) (k : String)
    (he : inExcluded fields so k = false) (ks : List String) :
    ∀ acc : Fields, k ∈ keys acc →
      k ∈ keys (List.foldl (cleanStep tbl fields rec data so) acc ks) := by
  induction ks with
  | nil => exact fun acc h => h
  | cons c rest ih =>
    intro acc h
    rw [List.foldl_cons]
    apply ih
    rcases cleanStep_cases tbl fields rec data so acc c with ⟨hexc, heq⟩ | ⟨_, heq | ⟨nv, heq⟩⟩
    · rw [heq]
      apply (mem_keys_eraseKey c k acc).mpr
      refine ⟨h, ?_⟩
      intro hkc
      subst hkc
      rw [hexc] at he
      exact absurd he (by simp)
    · rw [heq]
      exact h
    · rw [heq]
      exact (mem_keys_setKey c k nv acc).mpr (Or.inr h)

theorem fold_keys_sub (tbl : List (String × Schema)) (fields : List String)
    (rec : Value → Option Schema → Value) (data : Value) (so : Option Schema) (k : String)
    (ks : List String) :
    ∀ acc : Fields, k ∈ keys (List.foldl (cleanStep tbl fields rec data so) acc ks) →
      k ∈ keys acc ∨ k ∈ ks := by
  induction ks with
  | nil => exact fun acc h => Or.inl h
  | cons c rest ih =>
    intro acc h
    rw [List.foldl_cons] at h
    rcases ih _ h with h' | h'
    · rcases cleanStep_cases tbl fields rec data so acc c with
        ⟨_, heq⟩ | ⟨_, heq | ⟨nv, heq⟩⟩
      · rw [heq] at h'
        exact Or.inl ((mem_keys_eraseKey c k acc).mp h').1
      · rw [heq] at h'
        exact Or.inl h'
      · rw [heq] at h'
        rcases (mem_keys_setKey c k nv acc).mp h' with h'' | h''
        · exact Or.inr (h'' ▸ List.mem_cons_self c rest)
        · exact Or.inl h''
    · exact Or.inr (List.mem_cons_of_mem c h')

/-! ### Fuel irrelevance and the canonical unfolding -/

theorem cleanDataF_irrelevant (tbl : List (String × Schema)) (fields : List String) :
    ∀ f₁ f₂ (data : Value) (so : Option Schema), valSize data ≤ f₁ → valSize data ≤ f₂ →
      cleanDataF tbl fields f₁ data so = cleanDataF tbl fields f₂ data so := by
  intro f₁
  induction f₁ with
  | zero =>
    intro f₂ data so h₁ _
    have := valSize_pos data
    omega
  | succ f ih =>
    intro f₂ data so h₁ h₂
    cases f₂ with
    | zero =>
      have := valSize_pos data
      omega
    | succ g =>
      simp only [cleanDataF]
      congr 1
      apply foldl_fun_ext
      intro acc k
      apply cleanStep_congr
      intro v s' hsz
      exact ih g v s' (by omega) (by omega)

theorem cleanData_unfold (tbl : List (String × Schema)) (fields : List String)
    (data : Value) (so : Option Schema) :
    cleanData tbl fields data so =
      Value.obj (List.foldl (cleanStep tbl fields (cleanData tbl fields) data so)
        (toObjFields data) (keys (toObjFields data))) := by
  have h1 : 1 ≤ valSize data := valSize_pos data
  obtain ⟨f, hf⟩ : ∃ f, valSize data = f + 1 := ⟨valSize data - 1, by omega⟩
  rw [cleanData, hf]
  simp only [cleanDataF]
  congr 1
  apply foldl_fun_ext
  intro acc k
  apply cleanStep_congr
  intro v s' hsz
  rw [cleanData]
  exact cleanDataF_irrelevant tbl fields f (valSize v) v s' (by omega) (le_refl _)

theorem objFields_cleanData (tbl : List (String × Schema)) (fields : List String)
    (data : Value) (so : Option Schema) :
    objFields (cleanData tbl fields data so) =
      List.foldl (cleanStep tbl fields (cleanData tbl fields) data so)
        (toObjFields data) (keys (toObjFields data)) := by
  rw [cleanData_unfold]
  rfl

theorem truthy_cleanData (tbl : List (String × Schema)) (fields : List String)
    (data : Value) (so : Option Schema) : truthy (cleanData tbl fields data so) = true := by
  rw [cleanData_unfold]
  rfl

theorem cleanData_ne_arr (tbl : List (String × Schema)) (fields : List String)
    (data : Value) (so : Option Schema) (l : VList) :
    cleanData tbl fields data so ≠ Value.arr l := by
  rw [cleanData_unfold]
  intro h
  exact Value.noConfusion h

theorem toObjFields_cleanData (tbl : List (String × Schema)) (fields : List String)
    (data : Value) (so : Option Schema) :
    toObjFields (cleanData tbl fields data so) = objFields (cleanData tbl fields data so) := by
  rw [cleanData_unfold]
  rfl

theorem mem_keys_of_getKey_some (k : String) (f : Fields) (v : Value)
    (h : getKey k f = some v) : k ∈ keys f := by
  by_contra hm
  rw [getKey_none_of_not_mem k f hm] at h
  exact Option.noConfusion h

/-! ### Per-key characterization of the sanitizer's output -/

theorem out_excluded (tbl : List (String × Schema)) (fields : List String)
    (data : Value) (so : Option Schema) (k : String)
    (he : inExcluded fields so k = true) :
    getKey k (objFields (cleanData tbl fields data so)) = none := by
  rw [objFields_cleanData]
  apply getKey_none_of_not_mem
  apply fold_not_mem_excl tbl fields (cleanData tbl fields) data so k he
  by_cases hm : k ∈ keys (toObjFields data)
  · exact Or.inr hm
  · exact Or.inl hm

theorem out_missing (tbl : List (String × Schema)) (fields : List String)
    (data : Value) (so : Option Schema) (k : String)
    (he : inExcluded fields so k = false) (hv : getKey k (toObjFields data) = none) :
    getKey k (objFields (cleanData tbl fields data so)) = none := by
  rw [objFields_cleanData]
  rw [fold_getKey_stable tbl fields (cleanData tbl fields) data so k
    (cleanStep_noop_missing tbl fields (cleanData tbl fields) data so k he hv) _]
  exact hv

theorem out_falsy (tbl : List (String × Schema)) (fields : List String)
    (data : Value) (so : Option Schema) (k : String) (v : Value)
    (he : inExcluded fields so k = false) (hv : getKey k (toObjFields data) = some v)
    (ht : truthy v = false) :
    getKey k (objFields (cleanData tbl fields data so)) = some v := by
  rw [objFields_cleanData]
  rw [fold_getKey_stable tbl fields (cleanData tbl fields) data so k
    (cleanStep_noop_falsy tbl fields (cleanData tbl fields) data so k v he hv ht) _]
  exact hv

theorem out_plain (tbl : List (String × Schema)) (fields : List String)
    (data : Value) (so : Option Schema) (k : String) (v : Value)
    (he : inExcluded fields so k = false) (hv : getKey k (toObjFields data) = some v)
    (ht : truthy v = true) (hdz : getType so k ≠ "dynamiczone")
    (hc : getType so k ≠ "component") :
    getKey k (objFields (cleanData tbl fields data so)) = some v := by
  rw [objFields_cleanData]
  rw [fold_getKey_stable tbl fields (cleanData tbl fields) data so k
    (cleanStep_noop_plain tbl fields (cleanData tbl fields) data so k v he hv ht hdz hc) _]
  exact hv

theorem out_dz_nonarr (tbl : List (String × Schema)) (fields : List String)
    (data : Value) (so : Option Schema) (k : String) (v : Value)
    (he : inExcluded fields so k = false) (hv : getKey k (toObjFields data) = some v)
    (ht : truthy v = true) (hdz : getType so k = "dynamiczone")
    (hna : ∀ l, v ≠ Value.arr l) :
    getKey k (objFields (cleanData tbl fields data so)) = some v := by
  rw [objFields_cleanData]
  rw [fold_getKey_stable tbl fields (cleanData tbl fields) data so k
    (cleanStep_noop_dz_nonarr tbl fields (cleanData tbl fields) data so k v he hv ht hdz
      hna) _]
  exact hv

theorem out_dz (tbl : List (String × Schema)) (fields : List String)
    (data : Value) (so : Option Schema) (k : String) (l : VList)
    (he : inExcluded fields so k = false)
    (hv : getKey k (toObjFields data) = some (Value.arr l))
    (hdz : getType so k = "dynamiczone") :
    getKey k (objFields (cleanData tbl fields data so)) =
      some (Value.arr
        (vmap (fun cv => cleanData tbl fields cv (lookupStr (discKey cv) tbl)) l)) := by
  rw [objFields_cleanData]
  apply fold_getKey_set tbl fields (cleanData tbl fields) data so k _
    (cleanStep_set_dz tbl fields (cleanData tbl fields) data so k l he hv hdz)
  exact Or.inl (mem_keys_of_getKey_some k _ _ hv)

theorem out_comp_rep (tbl : List (String × Schema)) (fields : List String)
    (data : Value) (so : Option Schema) (k : String) (l : VList)
    (he : inExcluded fields so k = false)
    (hv : getKey k (toObjFields data) = some (Value.arr l))
    (hc : getType so k = "component") (hrep : getRepeatable so k = true) :
    getKey k (objFields (cleanData tbl fields data so)) =
      some (Value.arr
        (vmap (fun cd => cleanData tbl fields cd (lookupStr (getComponent so k) tbl)) l)) := by
  rw [objFields_cleanData]
  apply fold_getKey_set tbl fields (cleanData tbl fields) data so k _
    (cleanStep_set_comp_rep tbl fields (cleanData tbl fields) data so k l he hv hc hrep)
  exact Or.inl (mem_keys_of_getKey_some k _ _ hv)

theorem out_comp_single (tbl : List (String × Schema)) (fields : List String)
    (data : Value) (so : Option Schema) (k : String) (v : Value)
    (he : inExcluded fields so k = false) (hv : getKey k (toObjFields data) = some v)
    (ht : truthy v = true) (hc : getType so k = "component")
    (hrep : getRepeatable so k = false) :
    getKey k (objFields (cleanData tbl fields data so)) =
      some (cleanData tbl fields v (lookupStr (getComponent so k) tbl)) := by
  rw [objFields_cleanData]
  apply fold_getKey_set tbl fields (cleanData tbl fields) data so k _
    (cleanStep_set_comp_single tbl fields (cleanData tbl fields) data so k v he hv ht hc hrep)
  exact Or.inl (mem_keys_of_getKey_some k _ _ hv)

theorem out_comp_rep_nonarr (tbl : List (String × Schema)) (fields : List String)
    (data : Value) (so : Option Schema) (k : String) (v : Value)
    (he : inExcluded fields so k = false) (hv : getKey k (toObjFields data) = some v)
    (ht : truthy v = true) (hc : getType so k = "component")
    (hrep : getRepeatable so k = true) (hna : ∀ l, v ≠ Value.arr l) :
    getKey k (objFields (cleanData tbl fields data so)) =
      some (cleanData tbl fields v (lookupStr (getComponent so k) tbl)) := by
  rw [objFields_cleanData]
  apply fold_getKey_set tbl fields (cleanData tbl fields) data so k _
    (cleanStep_set_comp_rep_nonarr tbl fields (cleanData tbl fields) data so k v he hv ht hc
      hrep hna)
  exact Or.inl (mem_keys_of_getKey_some k _ _ hv)

theorem out_mem_keys (tbl : List (String × Schema)) (fields : List String)
    (data : Value) (so : Option Schema) (k : String)
    (he : inExcluded fields so k = false) (hm : k ∈ keys (toObjFields data)) :
    k ∈ keys (objFields (cleanData tbl fields data so)) := by
  rw [objFields_cleanData]
  exact fold_mem_keys tbl fields (cleanData tbl fields) data so k he _ _ hm

theorem out_keys_sub (tbl : List (String × Schema)) (fields : List String)
    (data : Value) (so : Option Schema) (k : String)
    (hm : k ∈ keys (objFields (cleanData tbl fields data so))) :
    k ∈ keys (toObjFields data) := by
  rw [objFields_cleanData] at hm
  rcases fold_keys_sub tbl fields (cleanData tbl fields) data so k _ _ hm with h | h
  · exact h
  · exact h

/-! ### Idempotence machinery -/

theorem lookupStr_mem {α : Type} (k : String) (l : List (String × α)) (x : α)
    (h : lookupStr k l = some x) : (k, x) ∈ l := by
  induction l with
  | nil => simp [lookupStr] at h
  | cons p r ih =>
    obtain ⟨k', v⟩ := p
    by_cases h1 : k' = k
    · subst h1
      simp [lookupStr] at h
      subst h
      exact List.mem_cons_self _ _
    · simp [lookupStr, h1] at h
      exact List.mem_cons_of_mem _ (ih h)

theorem compOk_of_lookup (fields : List String) (tbl : List (String × Schema)) (s : String)
    (hT : ∀ p ∈ tbl, compOk fields (some p.2)) (hN : compOk fields none) :
    compOk fields (lookupStr s tbl) := by
  cases h : lookupStr s tbl with
  | none => exact hN
  | some sch => exact hT (s, sch) (lookupStr_mem s tbl sch h)

theorem discKey_cleanData (tbl : List (String × Schema)) (fields : List String)
    (cv : Value) (so : Option Schema) (hok : compOk fields so) :
    discKey (cleanData tbl fields cv so) = discKey cv := by
  obtain ⟨he, hc, hdz⟩ := hok
  simp only [discKey, toObjFields_cleanData]
  cases hw : getKey "__component" (toObjFields cv) with
  | none => rw [out_missing tbl fields cv so "__component" he hw]
  | some w =>
    by_cases ht : truthy w = true
    · rw [out_plain tbl fields cv so "__component" w he hw ht hdz hc]
    · have ht2 : truthy w = false := by simpa using ht
      rw [out_falsy tbl fields cv so "__component" w he hw ht2]

theorem clean_idem (tbl : List (String × Schema)) (fields : List String)
    (hN : compOk fields none) (hT : ∀ p ∈ tbl, compOk fields (some p.2)) :
    ∀ n (data : Value) (so : Option Schema), valSize data ≤ n → compOk fields so →
      cleanData tbl fields (cleanData tbl fields data so) so =
        cleanData tbl fields data so := by
  intro n
  induction n with
  | zero =>
    intro data so hsz _
    have := valSize_pos data
    omega
  | succ m ih =>
    intro data so hsz hok
    obtain ⟨F, hF⟩ : ∃ F, cleanData tbl fields data so = Value.obj F :=
      ⟨_, cleanData_unfold tbl fields data so⟩
    rw [hF, cleanData_unfold tbl fields (Value.obj F) so]
    simp only [toObjFields]
    congr 1
    apply foldl_id_of_steps
    intro k hk
    have hkO : k ∈ keys (objFields (cleanData tbl fields data so)) := by
      rw [hF]
      simpa [objFields] using hk
    have hkflds : k ∈ keys (toObjFields data) := out_keys_sub tbl fields data so k hkO
    have he : inExcluded fields so k = false := by
      by_cases h : inExcluded fields so k = true
      · have := not_mem_of_getKey_none k _ (out_excluded tbl fields data so k h)
        exact absurd hkO this
      · simpa using h
    obtain ⟨v, hv⟩ : ∃ v, getKey k (toObjFields data) = some v :=
      Option.isSome_iff_exists.mp (getKey_isSome_of_mem k _ hkflds)
    by_cases ht : truthy v = true
    · by_cases hdz : getType so k = "dynamiczone"
      · by_cases harr : ∃ l, v = Value.arr l
        · obtain ⟨l, rfl⟩ := harr
          have hOut : getKey k F =
              some (Value.arr
                (vmap (fun cv => cleanData tbl fields cv (lookupStr (discKey cv) tbl)) l)) := by
            have h0 := out_dz tbl fields data so k l he hv hdz
            rw [hF] at h0
            simpa [objFields] using h0
          rw [cleanStep_set_dz tbl fields (cleanData tbl fields) (Value.obj F) so k
            (vmap (fun cv => cleanData tbl fields cv (lookupStr (discKey cv) tbl)) l) he
            (by simpa [toObjFields] using hOut) hdz]
          have hmapeq :
              vmap (fun cv => cleanData tbl fields cv (lookupStr (discKey cv) tbl))
                (vmap (fun cv => cleanData tbl fields cv (lookupStr (discKey cv) tbl)) l) =
              vmap (fun cv => cleanData tbl fields cv (lookupStr (discKey cv) tbl)) l := by
            apply vmap_comp_eq
            intro cv hcv
            have hok1 : compOk fields (lookupStr (discKey cv) tbl) :=
              compOk_of_lookup fields tbl (discKey cv) hT hN
            have hszcv : valSize cv ≤ m := by
              have h1 := getKey_toObjFields_size k data (Value.arr l) hv
              have h2 := vmem_size cv l hcv
              omega
            rw [discKey_cleanData tbl fields cv (lookupStr (discKey cv) tbl) hok1]
            exact ih cv (lookupStr (discKey cv) tbl) hszcv hok1
          rw [hmapeq]
          exact setKey_self k _ F hOut
        · have hna : ∀ l, v ≠ Value.arr l := fun l hl => harr ⟨l, hl⟩
          have hOut : getKey k F = some v := by
            have h0 := out_dz_nonarr tbl fields data so k v he hv ht hdz hna
            rw [hF] at h0
            simpa [objFields] using h0
          exact cleanStep_noop_dz_nonarr tbl fields (cleanData tbl fields) (Value.obj F) so
            k v he (by simpa [toObjFields] using hOut) ht hdz hna F
      · by_cases hc : getType so k = "component"
        · have hok1 : compOk fields (lookupStr (getComponent so k) tbl) :=
            compOk_of_lookup fields tbl (getComponent so k) hT hN
          cases hrep : getRepeatable so k with
          | true =>
            by_cases harr : ∃ l, v = Value.arr l
            · obtain ⟨l, rfl⟩ := harr
              have hOut : getKey k F =
                  some (Value.arr
                    (vmap (fun cd => cleanData tbl fields cd
                      (lookupStr (getComponent so k) tbl)) l)) := by
                have h0 := out_comp_rep tbl fields data so k l he hv hc hrep
                rw [hF] at h0
                simpa [objFields] using h0
              rw [cleanStep_set_comp_rep tbl fields (cleanData tbl fields) (Value.obj F) so k
                (vmap (fun cd => cleanData tbl fields cd
                  (lookupStr (getComponent so k) tbl)) l) he
                (by simpa [toObjFields] using hOut) hc hrep]
              have hmapeq :
                  vmap (fun cd => cleanData tbl fields cd (lookupStr (getComponent so k) tbl))
                    (vmap (fun cd => cleanData tbl fields cd
                      (lookupStr (getComponent so k) tbl)) l) =
                  vmap (fun cd => cleanData tbl fields cd
                    (lookupStr (getComponent so k) tbl)) l := by
                apply vmap_comp_eq
                intro cd hcd
                have hszcd : valSize cd ≤ m := by
                  have h1 := getKey_toObjFields_size k data (Value.arr l) hv
                  have h2 := vmem_size cd l hcd
                  omega
                exact ih cd (lookupStr (getComponent so k) tbl) hszcd hok1
              rw [hmapeq]
              exact setKey_self k _ F hOut
            · have hna : ∀ l, v ≠ Value.arr l := fun l hl => harr ⟨l, hl⟩
              have hOut : getKey k F =
                  some (cleanData tbl fields v (lookupStr (getComponent so k) tbl)) := by
                have h0 := out_comp_rep_nonarr tbl fields data so k v he hv ht hc hrep hna
                rw [hF] at h0
                simpa [objFields] using h0
              rw [cleanStep_set_comp_rep_nonarr tbl fields (cleanData tbl fields)
                (Value.obj F) so k
                (cleanData tbl fields v (lookupStr (getComponent so k) tbl)) he
                (by simpa [toObjFields] using hOut)
                (truthy_cleanData tbl fields v (lookupStr (getComponent so k) tbl)) hc hrep
                (cleanData_ne_arr tbl fields v (lookupStr (getComponent so k) tbl))]
              have hszv : valSize v ≤ m := by
                have h1 := getKey_toObjFields_size k data v hv
                omega
              rw [ih v (lookupStr (getComponent so k) tbl) hszv hok1]
              exact setKey_self k _ F hOut
          | false =>
            have hOut : getKey k F =
                some (cleanData tbl fields v (lookupStr (getComponent so k) tbl)) := by
              have h0 := out_comp_single tbl fields data so k v he hv ht hc hrep
              rw [hF] at h0
              simpa [objFields] using h0
            rw [cleanStep_set_comp_single tbl fields (cleanData tbl fields) (Value.obj F) so k
              (cleanData tbl fields v (lookupStr (getComponent so k) tbl)) he
              (by simpa [toObjFields] using hOut)
              (truthy_cleanData tbl fields v (lookupStr (getComponent so k) tbl)) hc hrep]
            have hszv : valSize v ≤ m := by
              have h1 := getKey_toObjFields_size k data v hv
              omega
            rw [ih v (lookupStr (getComponent so k) tbl) hszv hok1]
            exact setKey_self k _ F hOut
        · have hOut : getKey k F = some v := by
            have h0 := out_plain tbl fields data so k v he hv ht hdz hc
            rw [hF] at h0
            simpa [objFields] using h0
          exact cleanStep_noop_plain tbl fields (cleanData tbl fields) (Value.obj F) so k v he
            (by simpa [toObjFields] using hOut) ht hdz hc F
    · have ht2 : truthy v = false := by simpa using ht
      have hOut : getKey k F = some v := by
        have h0 := out_falsy tbl fields data so k v he hv ht2
        rw [hF] at h0
        simpa [objFields] using h0
      exact cleanStep_noop_falsy tbl fields (cleanData tbl fields) (Value.obj F) so k v he
        (by simpa [toObjFields] using hOut) ht2 F

/-! ### Behaviour under an absent schema and ill-formed timestamps -/

theorem getType_none (k : String) : getType none k = "" := rfl

theorem inExcluded_none (fields : List String) (k : String) :
    inExcluded fields none k = memStr k fields := by
  simp [inExcluded, timestampsVals, tsContains]

theorem cleanData_none_getKey (tbl : List (String × Schema)) (fields : List String)
    (data : Value) (k : String) :
    getKey k (objFields (cleanData tbl fields data none)) =
      if memStr k fields = true then none else getKey k (toObjFields data) := by
  by_cases hm : memStr k fields = true
  · rw [if_pos hm]
    exact out_excluded tbl fields data none k (by rw [inExcluded_none]; exact hm)
  · rw [if_neg hm]
    have he : inExcluded fields none k = false := by
      rw [inExcluded_none]
      simpa using hm
    cases hv : getKey k (toObjFields data) with
    | none => exact out_missing tbl fields data none k he hv
    | some v =>
      by_cases ht : truthy v = true
      · exact out_plain tbl fields data none k v he hv ht
          (by rw [getType_none]; decide) (by rw [getType_none]; decide)
      · exact out_falsy tbl fields data none k v he hv (by simpa using ht)

theorem cleanData_timestamps_nonseq (tbl : List (String × Schema)) (fields : List String)
    (data : Value) (attrs : List (String × Attribute)) (tsv : Value)
    (h : isArr tsv = false) :
    cleanData tbl fields data (some ⟨attrs, tsv⟩) =
      cleanData tbl fields data (some ⟨attrs, Value.null⟩) := by
  have hts : timestampsVals (some ⟨attrs, tsv⟩) = timestampsVals (some ⟨attrs, Value.null⟩) := by
    cases tsv with
    | arr l => simp [isArr] at h
    | null => rfl
    | bool b => rfl
    | num n => rfl
    | str s => rfl
    | obj f => rfl
  rw [cleanData_unfold, cleanData_unfold]
  congr 1
  apply foldl_fun_ext
  intro acc k
  simp only [cleanStep, inExcluded, hts, getType, getComponent, getRepeatable, getAttr]

/-! ### The claims -/

/-- Claim C1, counterexample: the claim says a `componentIdentifier` with no
entry in the component-schema table makes the call fail with an error and
return no partial output.  On the concrete record `{sub: {a: 1, id: 3}}`
whose schema binds `sub` to the unresolvable identifier `"missing"` and an
empty table, the source instead succeeds and returns a complete sanitized
output (it even strips the excluded `id` inside the unresolved sub-record). -/
theorem claim_C1_counterexample :
    redact unresolvedRecord unresolvedSchema [] =
      Value.obj (.cons "sub" (.obj (.cons "a" (.num 1) .nil)) .nil) := rfl

/-- Claim C1, amended: the call never fails.  An unresolved component
identifier (or a dynamic-zone entry without a resolvable `__component`)
makes the recursion proceed with an absent schema, under which exactly the
supplied exclusion names are removed and every other field of that
sub-record passes through with its original value; in particular a
component field with an unresolvable identifier is bound to the
absent-schema sanitization of its value. -/
theorem claim_C1_theorem :
    (∀ (tbl : List (String × Schema)) (fields : List String) (data : Value) (k : String),
      getKey k (objFields (cleanData tbl fields data none)) =
        if memStr k fields = true then none else getKey k (toObjFields data)) ∧
    (∀ (tbl : List (String × Schema)) (fields : List String) (data : Value)
        (so : Option Schema) (k : String) (v : Value),
      getKey k (toObjFields data) = some v → inExcluded fields so k = false →
      truthy v = true → getType so k = "component" → getRepeatable so k = false →
      lookupStr (getComponent so k) tbl = none →
      getKey k (objFields (cleanData tbl fields data so)) =
        some (cleanData tbl fields v none)) := by
  constructor
  · exact cleanData_none_getKey
  · intro tbl fields data so k v hv he ht hc hrep hlook
    have h0 := out_comp_single tbl fields data so k v he hv ht hc hrep
    rw [hlook] at h0
    exact h0

/-- Claim C1, witness: the amended theorem evaluated on the unresolved-component
record. -/
theorem claim_C1_witness :
    getKey "sub" (toObjFields unresolvedRecord) = some subRecord ∧
    inExcluded defaultFields (some unresolvedSchema) "sub" = false ∧
    truthy subRecord = true ∧
    getType (some unresolvedSchema) "sub" = "component" ∧
    getRepeatable (some unresolvedSchema) "sub" = false ∧
    lookupStr (getComponent (some unresolvedSchema) "sub") ([] : List (String × Schema)) =
      none ∧
    getKey "sub" (objFields (cleanData [] defaultFields unresolvedRecord
        (some unresolvedSchema))) = some (cleanData [] defaultFields subRecord none) ∧
    getKey "a" (objFields (cleanData [] defaultFields subRecord none)) =
      (if memStr "a" defaultFields = true then none else getKey "a" (toObjFields subRecord)) :=
  ⟨rfl, rfl, rfl, rfl, rfl, rfl,
    claim_C1_theorem.2 [] defaultFields unresolvedRecord (some unresolvedSchema) "sub"
      subRecord rfl rfl rfl rfl rfl rfl,
    claim_C1_theorem.1 [] defaultFields subRecord "a"⟩

/-- Claim C2: at every level the sanitizer visits (every invocation of
`recursiveCleanData`, with any record, schema and component table), the
output contains no field whose name is in that level's effective exclusion
set — the supplied exclusion names unioned with the schema level's
timestamps option. -/
theorem claim_C2_theorem (tbl : List (String × Schema)) (fields : List String)
    (data : Value) (so : Option Schema) :
    (keys (objFields (cleanData tbl fields data so))).filter (inExcluded fields so) = [] := by
  apply List.filter_eq_nil_iff.mpr
  intro k hk hp
  exact not_mem_of_getKey_none k _ (out_excluded tbl fields data so k hp) hk

/-- Claim C3, counterexample: the claim says a non-excluded field with a falsy
value is omitted from the result.  On the concrete record `{flag: false}`
the source returns the record unchanged: the falsy field is retained with
its original value, because the accumulator is seeded with a shallow copy
of the input and the falsy branch merely skips recursion. -/
theorem claim_C3_counterexample : redact falsyRecord falsySchema [] = falsyRecord := rfl

/-- Claim C3, amended: a non-excluded field whose value is falsy is retained
in the result bound to its original value (it is only skipped for
recursion, never deleted). -/
theorem claim_C3_theorem (tbl : List (String × Schema)) (fields : List String)
    (data : Value) (so : Option Schema) (k : String) (v : Value)
    (hv : getKey k (toObjFields data) = some v) (he : inExcluded fields so k = false)
    (ht : truthy v = false) :
    getKey k (objFields (cleanData tbl fields data so)) = some v :=
  out_falsy tbl fields data so k v he hv ht

/-- Claim C3, witness: the amended theorem evaluated on `{flag: false}`. -/
theorem claim_C3_witness :
    getKey "flag" (toObjFields falsyRecord) = some (Value.bool false) ∧
    inExcluded defaultFields (some falsySchema) "flag" = false ∧
    truthy (Value.bool false) = false ∧
    getKey "flag" (objFields (cleanData [] defaultFields falsyRecord (some falsySchema))) =
      some (Value.bool false) :=
  ⟨rfl, rfl, rfl,
    claim_C3_theorem [] defaultFields falsyRecord (some falsySchema) "flag"
      (Value.bool false) rfl rfl rfl⟩

/-- Claim C4, counterexample: the claim says a truthy field of scalar (or any
non-component, non-dynamic-zone) kind is omitted from the result.  On the
concrete record `{title: "Hi"}` with `title` declared `"string"`, the
source returns the record unchanged: the scalar field is retained. -/
theorem claim_C4_counterexample : redact titleRecord titleSchema [] = titleRecord := rfl

/-- Claim C4, amended: a non-excluded truthy field whose declared kind is
neither `"component"` nor `"dynamiczone"` is retained in the result bound
to its original value (the final reduce branch returns the accumulator,
which was seeded with a copy of the input). -/
theorem claim_C4_theorem (tbl : List (String × Schema)) (fields : List String)
    (data : Value) (so : Option Schema) (k : String) (v : Value)
    (hv : getKey k (toObjFields data) = some v) (he : inExcluded fields so k = false)
    (ht : truthy v = true) (hdz : getType so k ≠ "dynamiczone")
    (hc : getType so k ≠ "component") :
    getKey k (objFields (cleanData tbl fields data so)) = some v :=
  out_plain tbl fields data so k v he hv ht hdz hc

/-- Claim C4, witness: the amended theorem evaluated on `{title: "Hi"}`. -/
theorem claim_C4_witness :
    getKey "title" (toObjFields titleRecord) = some (Value.str "Hi") ∧
    inExcluded defaultFields (some titleSchema) "title" = false ∧
    truthy (Value.str "Hi") = true ∧
    getType (some titleSchema) "title" ≠ "dynamiczone" ∧
    getType (some titleSchema) "title" ≠ "component" ∧
    getKey "title" (objFields (cleanData [] defaultFields titleRecord (some titleSchema))) =
      some (Value.str "Hi") :=
  ⟨rfl, rfl, rfl, by decide, by decide,
    claim_C4_theorem [] defaultFields titleRecord (some titleSchema) "title"
      (Value.str "Hi") rfl rfl rfl (by decide) (by decide)⟩

/-- Claim C5: the effective exclusion behaviour.  (i) The default exclusion
list is exactly `["createdBy", "updatedBy", "publishedAt", "id", "_id"]`
and `redact` is the transform with that default.  (ii) A field of the input
survives into the output exactly when its name is neither among the
supplied exclusion names nor a string entry of the schema level's
timestamps option — i.e. the effective exclusion set is their union.
(iii) A non-sequence `options.timestamps` value contributes nothing: the
transform behaves as if the option were absent, and no error is raised
(the function is total). -/
theorem claim_C5_theorem :
    (defaultFields = ["createdBy", "updatedBy", "publishedAt", "id", "_id"] ∧
      ∀ (data : Value) (contentTypeSchema : Schema)
        (componentSchema : List (String × Schema)),
        redact data contentTypeSchema componentSchema =
          contentManagementUtilRemoveFieldsFromData data contentTypeSchema componentSchema
            defaultFields) ∧
    (∀ (tbl : List (String × Schema)) (fields : List String) (data : Value)
        (so : Option Schema) (k : String), k ∈ keys (toObjFields data) →
      (k ∈ keys (objFields (cleanData tbl fields data so)) ↔
        (memStr k fields = false ∧ tsContains k (timestampsVals so) = false))) ∧
    (∀ (tbl : List (String × Schema)) (fields : List String) (data : Value)
        (attrs : List (String × Attribute)) (tsv : Value), isArr tsv = false →
      cleanData tbl fields data (some ⟨attrs, tsv⟩) =
        cleanData tbl fields data (some ⟨attrs, Value.null⟩)) := by
  refine ⟨⟨rfl, fun _ _ _ => rfl⟩, ?_, cleanData_timestamps_nonseq⟩
  intro tbl fields data so k hk
  constructor
  · intro hmem
    by_cases h : inExcluded fields so k = true
    · exact absurd hmem (not_mem_of_getKey_none k _ (out_excluded tbl fields data so k h))
    · have h2 : inExcluded fields so k = false := by simpa using h
      simpa [inExcluded] using h2
  · rintro ⟨h1, h2⟩
    apply out_mem_keys tbl fields data so k _ hk
    simp [inExcluded, h1, h2]

/-- Claim C5, witness: the theorem evaluated on spec scenario D
(`options.timestamps = ["publishedAt", "customDate"]` excludes `customDate`)
and on a numeric (non-sequence) timestamps option. -/
theorem claim_C5_witness :
    "customDate" ∈ keys (toObjFields datedRecord) ∧
    ("customDate" ∈ keys (objFields (cleanData [] defaultFields datedRecord
        (some datedSchema))) ↔
      (memStr "customDate" defaultFields = false ∧
        tsContains "customDate" (timestampsVals (some datedSchema)) = false)) ∧
    tsContains "customDate" (timestampsVals (some datedSchema)) = true ∧
    "customDate" ∉ keys (objFields (cleanData [] defaultFields datedRecord
      (some datedSchema))) ∧
    isArr (Value.num 5) = false ∧
    cleanData [] defaultFields datedRecord
        (some ⟨[("title", ⟨"string", "", false⟩)], Value.num 5⟩) =
      cleanData [] defaultFields datedRecord
        (some ⟨[("title", ⟨"string", "", false⟩)], Value.null⟩) :=
  ⟨by decide,
    claim_C5_theorem.2.1 [] defaultFields datedRecord (some datedSchema) "customDate"
      (by decide),
    rfl, by decide, rfl,
    claim_C5_theorem.2.2 [] defaultFields datedRecord [("title", ⟨"string", "", false⟩)]
      (Value.num 5) rfl⟩

/-- Claim C6: a non-excluded dynamic-zone field whose value is a sequence is
replaced by the sequence of per-entry sanitizations, where each entry is
sanitized against the schema obtained by looking up that entry's own
`__component` discriminator in the component-schema table — not the
enclosing field's schema and not a schema shared across entries. -/
theorem claim_C6_theorem (tbl : List (String × Schema)) (fields : List String)
    (data : Value) (so : Option Schema) (k : String) (l : VList)
    (he : inExcluded fields so k = false)
    (hv : getKey k (toObjFields data) = some (Value.arr l))
    (hdz : getType so k = "dynamiczone") :
    getKey k (objFields (cleanData tbl fields data so)) =
      some (Value.arr
        (vmap (fun cv => cleanData tbl fields cv (lookupStr (discKey cv) tbl)) l)) :=
  out_dz tbl fields data so k l he hv hdz

/-- Claim C6, witness: the theorem evaluated on spec scenario C, whose two
entries carry the distinct discriminators `"hero"` and `"quote"`. -/
theorem claim_C6_witness :
    inExcluded defaultFields (some sectionsSchema) "sections" = false ∧
    getKey "sections" (toObjFields sectionsRecord) =
      some (.arr (.cons heroEntry (.cons quoteEntry .nil))) ∧
    getType (some sectionsSchema) "sections" = "dynamiczone" ∧
    discKey heroEntry = "hero" ∧ discKey quoteEntry = "quote" ∧
    getKey "sections" (objFields (cleanData sectionsTable defaultFields sectionsRecord
        (some sectionsSchema))) =
      some (.arr (vmap (fun cv => cleanData sectionsTable defaultFields cv
        (lookupStr (discKey cv) sectionsTable)) (.cons heroEntry (.cons quoteEntry .nil)))) :=
  ⟨rfl, rfl, rfl, rfl, rfl,
    claim_C6_theorem sectionsTable defaultFields sectionsRecord (some sectionsSchema)
      "sections" (.cons heroEntry (.cons quoteEntry .nil)) rfl rfl rfl⟩

/-- Claim C7: a non-excluded repeatable-component or dynamic-zone field whose
value is a sequence of `n` entries is bound in the output to a sequence of
exactly `n` entries, the `i`-th being the sanitization of the `i`-th input
entry (per-entry discriminator schema for dynamic zones, the declared
component schema for repeatable components), in the original order. -/
theorem claim_C7_theorem (tbl : List (String × Schema)) (fields : List String)
    (data : Value) (so : Option Schema) (k : String) (l : VList)
    (he : inExcluded fields so k = false)
    (hv : getKey k (toObjFields data) = some (Value.arr l)) :
    (getType so k = "dynamiczone" →
      ∃ res, getKey k (objFields (cleanData tbl fields data so)) = some (Value.arr res) ∧
        vlen res = vlen l ∧
        ∀ i, i < vlen l →
          vget res i = cleanData tbl fields (vget l i)
            (lookupStr (discKey (vget l i)) tbl)) ∧
    (getType so k = "component" → getRepeatable so k = true →
      ∃ res, getKey k (objFields (cleanData tbl fields data so)) = some (Value.arr res) ∧
        vlen res = vlen l ∧
        ∀ i, i < vlen l →
          vget res i = cleanData tbl fields (vget l i)
            (lookupStr (getComponent so k) tbl)) := by
  constructor
  · intro hdz
    refine ⟨_, out_dz tbl fields data so k l he hv hdz, vlen_vmap _ l, ?_⟩
    intro i hi
    exact vget_vmap _ l i hi
  · intro hc hrep
    refine ⟨_, out_comp_rep tbl fields data so k l he hv hc hrep, vlen_vmap _ l, ?_⟩
    intro i hi
    exact vget_vmap _ l i hi

/-- Claim C7, witness: the theorem evaluated on spec scenario B — the
two-entry repeatable component `images` keeps two entries, each sanitized
independently and (as the closing conjunct computes) without `id`. -/
theorem claim_C7_witness :
    inExcluded defaultFields (some imagesSchema) "images" = false ∧
    getKey "images" (toObjFields imagesRecord) =
      some (.arr (.cons imageEntry1 (.cons imageEntry2 .nil))) ∧
    getType (some imagesSchema) "images" = "component" ∧
    getRepeatable (some imagesSchema) "images" = true ∧
    (∃ res, getKey "images" (objFields (cleanData imagesTable defaultFields imagesRecord
        (some imagesSchema))) = some (Value.arr res) ∧
      vlen res = vlen (VList.cons imageEntry1 (.cons imageEntry2 .nil)) ∧
      ∀ i, i < vlen (VList.cons imageEntry1 (.cons imageEntry2 .nil)) →
        vget res i = cleanData imagesTable defaultFields
          (vget (VList.cons imageEntry1 (.cons imageEntry2 .nil)) i)
          (lookupStr (getComponent (some imagesSchema) "images") imagesTable)) ∧
    getKey "images" (objFields (redact imagesRecord imagesSchema imagesTable)) =
      some (.arr (.cons (.obj (.cons "u" (.str "a") .nil))
        (.cons (.obj (.cons "u" (.str "b") .nil)) .nil))) :=
  ⟨rfl, rfl, rfl, rfl,
    (claim_C7_theorem imagesTable defaultFields imagesRecord (some imagesSchema) "images"
      (.cons imageEntry1 (.cons imageEntry2 .nil)) rfl rfl).2 rfl rfl, rfl⟩

/-- Claim C8, counterexample: `redact` is not idempotent for every record,
schema, table and exclusion set.  On a dynamic zone whose entry's resolved
schema strips the `__component` discriminator itself (via its timestamps),
and a table that also binds the key `"undefined"`, the first pass removes
the discriminator, so the second pass resolves the `"undefined"` schema and
strips further fields: the two passes differ. -/
theorem claim_C8_counterexample :
    redact (redact discRecord discSchema discTable) discSchema discTable ≠
      redact discRecord discSchema discTable := by
  intro h
  have h2 := congrArg (fun v => getKey "x" (objFields (headV (arrElems
    ((getKey "dz" (objFields v)).getD Value.null))))) h
  have h3 : (none : Option Value) = some (Value.str "s") := h2
  exact Option.noConfusion h3

/-- Claim C8, amended: sanitizing is idempotent whenever the `__component`
discriminator survives a pass unchanged at every level — namely when
`__component` is not in the effective exclusion set and not declared with a
structured kind under the top schema, under any schema of the component
table, and under the absent schema (i.e. it is not among the supplied
exclusion names).  Without these conditions a first pass can change a
dynamic-zone entry's discriminator and the second pass resolves a different
schema, as the counterexample shows. -/
theorem claim_C8_theorem (tbl : List (String × Schema)) (fields : List String)
    (data : Value) (so : Option Schema)
    (hN : compOk fields none) (hT : ∀ p ∈ tbl, compOk fields (some p.2))
    (hok : compOk fields so) :
    cleanData tbl fields (cleanData tbl fields data so) so =
      cleanData tbl fields data so :=
  clean_idem tbl fields hN hT (valSize data) data so (le_refl _) hok

/-- Claim C8, witness: the amended theorem evaluated on the dynamic-zone
record with a benign component table. -/
theorem claim_C8_witness :
    compOk defaultFields none ∧
    (∀ p ∈ benignTable, compOk defaultFields (some p.2)) ∧
    compOk defaultFields (some discSchema) ∧
    cleanData benignTable defaultFields (cleanData benignTable defaultFields discRecord
        (some discSchema)) (some discSchema) =
      cleanData benignTable defaultFields discRecord (some discSchema) :=
  ⟨by decide, by decide, by decide,
    claim_C8_theorem benignTable defaultFields discRecord (some discSchema) (by decide)
      (by decide) (by decide)⟩

/-- Claim C10: pass-through retention.  A field whose name is not in the
effective exclusion set for its level and whose declared kind is neither
`"component"` nor `"dynamiczone"` (including fields absent from the schema,
such as the `__component` discriminator inside dynamic-zone entries), or
whose value is falsy, appears in the output bound to its original input
value: the result is seeded with a copy of the record and such fields are
never deleted. -/
theorem claim_C10_theorem (tbl : List (String × Schema)) (fields : List String)
    (data : Value) (so : Option Schema) (k : String) (v : Value)
    (hv : getKey k (toObjFields data) = some v)
    (he : inExcluded fields so k = false)
    (hcase : truthy v = false ∨
      (getType so k ≠ "component" ∧ getType so k ≠ "dynamiczone")) :
    getKey k (objFields (cleanData tbl fields data so)) = some v := by
  rcases hcase with ht | ⟨hc, hdz⟩
  · exact out_falsy tbl fields data so k v he hv ht
  · cases ht2 : truthy v with
    | false => exact out_falsy tbl fields data so k v he hv ht2
    | true => exact out_plain tbl fields data so k v he hv ht2 hdz hc

/-- Claim C10, witness: the theorem evaluated on a record whose only field is
undeclared in the schema. -/
theorem claim_C10_witness :
    getKey "note" (toObjFields plainRecord) = some (Value.str "n") ∧
    inExcluded defaultFields (some emptySchema) "note" = false ∧
    (getType (some emptySchema) "note" ≠ "component" ∧
      getType (some emptySchema) "note" ≠ "dynamiczone") ∧
    getKey "note" (objFields (cleanData [] defaultFields plainRecord (some emptySchema))) =
      some (Value.str "n") :=
  ⟨rfl, rfl, ⟨by decide, by decide⟩,
    claim_C10_theorem [] defaultFields plainRecord (some emptySchema) "note" (Value.str "n")
      rfl rfl (Or.inr ⟨by decide, by decide⟩)⟩
